import Mathlib

/-!
Formal model of the SQL query workbench component
(`src/components/sql-query-interface.tsx`): tab/session management, query
dispatch and response normalization, and client-side sorting, embedded
shallowly as pure functions over an explicit workbench state.

The component's JavaScript values are modelled by the inductive `JSVal`;
the string operations the component calls (`trim`, `toUpperCase`,
`split`, `join`, `String(v)` conversion) are defined character-list-wise
with JS semantics (ASCII case mapping, whitespace as in the common
case), so that every definition evaluates on concrete inputs.  The
environment-dependent `localeCompare` ordering is a parameter `lc` of
the sorting functions; concrete evaluations instantiate it with
code-point comparison.
-/

namespace Jagura

/-- Untyped JavaScript values, as far as the component's data paths
distinguish them: response payload rows, table cells and header entries. -/
inductive JSVal where
  | undefined : JSVal
  | null : JSVal
  | bool : Bool → JSVal
  | num : Int → JSVal
  | str : String → JSVal
  | arr : List JSVal → JSVal
  | obj : List (String × JSVal) → JSVal

/-! ### JS string primitives (character-list semantics) -/

/-- JS `String.prototype.toUpperCase` on the ASCII range. -/
def jsUpper (s : String) : String := ⟨s.data.map Char.toUpper⟩

/-- JS `String.prototype.trim`: strip leading and trailing whitespace. -/
def jsTrim (s : String) : String :=
  ⟨((s.data.dropWhile Char.isWhitespace).reverse.dropWhile Char.isWhitespace).reverse⟩

/-- Auxiliary loop of `jsSplit`: accumulate the current piece (reversed). -/
def jsSplitAux (sep : Char) : List Char → List Char → List String
  | [], acc => [⟨acc.reverse⟩]
  | c :: cs, acc =>
    if c == sep then ⟨acc.reverse⟩ :: jsSplitAux sep cs []
    else jsSplitAux sep cs (c :: acc)

/-- JS `String.prototype.split` with a one-character separator (the source
splits on `";"`); `"".split(";")` is `[""]`. -/
def jsSplit (sep : Char) (s : String) : List String :=
  jsSplitAux sep s.data []

/-- JS `Array.prototype.join` on strings. -/
def jsJoin (sep : String) : List String → String
  | [] => ""
  | [x] => x
  | x :: rest => x ++ sep ++ jsJoin sep rest

/-- Code-point lexicographic `<` on strings, used to build a concrete
instantiation of the locale ordering. -/
def jsLtChars : List Char → List Char → Bool
  | [], [] => false
  | [], _ :: _ => true
  | _ :: _, [] => false
  | a :: as, b :: bs => if a < b then true else if b < a then false else jsLtChars as bs

/-- A concrete locale ordering (code-point comparison) used to evaluate the
model on concrete inputs; the theorems about sorting are parametric in it. -/
def lcDefault (a b : String) : Int :=
  if jsLtChars a.data b.data then -1 else if jsLtChars b.data a.data then 1 else 0

/-! ### JS value primitives used by the component -/

/-- JS strict equality of a value against the empty-string literal
(`firstRow[0] === ""`). -/
def isEmptyString : JSVal → Bool
  | .str s => s == ""
  | _ => false

/-- Whether `typeof v === "object"` holds in JS: objects, arrays and `null`. -/
def typeofIsObject : JSVal → Bool
  | .obj _ => true
  | .arr _ => true
  | .null => true
  | _ => false

/-- Whether a value is the JS value `null`. -/
def isNull : JSVal → Bool
  | .null => true
  | _ => false

/-- Whether `typeof v === "number"` holds. -/
def isNum : JSVal → Bool
  | .num _ => true
  | _ => false

/-- The JS `in` operator for the string keys the component queries: object
own keys; on arrays only index keys and `"length"` exist; the component only
applies it after checking `typeof === "object"` and non-`null`. -/
def hasProp : JSVal → String → Bool
  | .obj fields, k => fields.any (fun p => p.1 == k)
  | .arr xs, k => k == "length" ||
      (match String.toNat? k with
       | some i => i < xs.length
       | none => false)
  | _, _ => false

/-- JS property read `v[k]` as the normalizer performs it: reading a property
of `null`/`undefined` throws `TypeError`; on other non-objects the named
properties the component reads (`name`, `type`) are absent, yielding
`undefined`. -/
def getProp : JSVal → String → Except String JSVal
  | .null, _ => .error "TypeError"
  | .undefined, _ => .error "TypeError"
  | .obj fields, k => .ok (((fields.find? (fun p => p.1 == k)).map Prod.snd).getD .undefined)
  | _, _ => .ok .undefined

/-- `(x as string).toUpperCase()`: only actual strings have `toUpperCase`;
on any other value the call throws `TypeError`. -/
def jsToUpperCase : JSVal → Except String String
  | .str s => .ok (jsUpper s)
  | _ => .error "TypeError"

mutual
/-- JS `String(v)` conversion, as the sort comparator applies it to cells. -/
def jsToString : JSVal → String
  | .undefined => "undefined"
  | .null => "null"
  | .bool b => if b then "true" else "false"
  | .num n => toString n
  | .str s => s
  | .arr xs => jsArrayToString xs
  | .obj _ => "[object Object]"

/-- `Array.prototype.toString`: elements joined by `","`, with `null` and
`undefined` elements rendered as the empty string. -/
def jsArrayToString : List JSVal → String
  | [] => ""
  | [v] => jsArrayElem v
  | v :: rest => jsArrayElem v ++ "," ++ jsArrayToString rest

/-- One element of an array rendering: `null`/`undefined` become `""`. -/
def jsArrayElem : JSVal → String
  | .undefined => ""
  | .null => ""
  | .bool b => if b then "true" else "false"
  | .num n => toString n
  | .str s => s
  | .arr xs => jsArrayToString xs
  | .obj _ => "[object Object]"
end

/-- JS element access `row[i]`: array index, string index (one-character
string), object numeric-string key; anything else yields `undefined`. -/
def jsIndex (v : JSVal) (i : Nat) : JSVal :=
  match v with
  | .arr xs => xs.getD i .undefined
  | .str s =>
    match s.data[i]? with
    | some c => .str (String.singleton c)
    | none => .undefined
  | .obj fields => ((fields.find? (fun p => p.1 == toString i)).map Prod.snd).getD .undefined
  | _ => .undefined

/-! ### Result data model -/

/-- A result column header.  The source's `ColumnType` enum is string-valued
at runtime and the typed-header branch casts an arbitrary upper-cased string
into it, so `type` is modelled as the underlying string; `name` is whatever
JS value the header supplied. -/
structure Column where
  name : JSVal
  type : String

namespace ColumnType
def NUMBER : String := "NUMBER"
def INT : String := "INT"
def STRING : String := "STRING"
def BOOLEAN : String := "BOOLEAN"
def CONTAINER : String := "CONTAINER"
def METADATA : String := "METADATA"
def RUN : String := "RUN"
def UNKNOWN : String := "UNKNOWN"
end ColumnType

/-- A normalized query result: column headers and data rows.  A row is an
arbitrary JS value: the source only asserts `any[][]` and the structural
check does not inspect rows beyond the first. -/
structure QueryResult where
  columns : List Column
  rows : List JSVal

/-- The typed-header branch's element mapping
`{ name: col.name, type: (col.type as string).toUpperCase() }`, propagating
the `TypeError` that a non-string `type` (or a `null`/`undefined` element)
raises. -/
def mapTypedColumns : List JSVal → Except String (List Column)
  | [] => .ok []
  | v :: rest => do
    let n ← getProp v "name"
    let t ← getProp v "type"
    let tu ← jsToUpperCase t
    let tail ← mapTypedColumns rest
    return { name := n, type := tu } :: tail

/-- Response normalization from `runQuery`: the structural checks on
`jsonRes.result`, the three header shapes (sentinel, typed header, plain
header) and the data-row extraction, with every thrown `Error` surfaced as
`Except.error`. -/
def normalizeResponse (data : JSVal) : Except String QueryResult :=
  match data with
  | .arr (first :: rest) =>
    match first with
    | .arr firstRow =>
      let head := firstRow.headD .undefined
      if firstRow.length == 1 && isEmptyString head then
        let columns : List Column := [{ name := .str "", type := ColumnType.UNKNOWN }]
        match rest with
        | r :: _ => .ok { columns := columns, rows := [r] }
        | [] => .ok { columns := columns, rows := [] }
      else if decide (0 < firstRow.length) && typeofIsObject head && !isNull head
          && hasProp head "type" && hasProp head "name" then do
        let columns ← mapTypedColumns firstRow
        return { columns := columns, rows := rest }
      else
        .ok { columns := firstRow.map (fun v => { name := v, type := ColumnType.UNKNOWN }),
              rows := rest }
    | _ => .error "Invalid response format from server."
  | .arr [] => .error "Invalid response format from server."
  | _ => .error "Invalid response format from server."

/-! ### Workbench state -/

/-- One editor tab, as the component's `Tab` interface declares it. -/
structure Tab where
  id : String
  name : String
  content : String
  queryResult : Option QueryResult
  executionTime : Option Int

/-- The sort direction strings `"asc"`/`"desc"`. -/
inductive Direction where
  | asc
  | desc
deriving DecidableEq

/-- The component's `sortConfig` state value. -/
structure SortConfig where
  key : Nat
  direction : Direction
deriving DecidableEq

/-- The workbench state: the `useState` cells the modelled handlers read and
write (`tabs`, `activeTab`, `isLoading`, `sortConfig`, `columnWidths`). -/
structure WState where
  tabs : List Tab
  activeTab : String
  isLoading : Bool
  sortConfig : Option SortConfig
  columnWidths : List Nat

/-- The initial state: a single tab with id `"1"`, active. -/
def initialState : WState :=
  { tabs := [{ id := "1", name := "New Query", content := "", queryResult := none,
               executionTime := none }],
    activeTab := "1", isLoading := false, sortConfig := none, columnWidths := [] }

/-- The ids of the current tab set, in order. -/
def tabIds (s : WState) : List String := s.tabs.map Tab.id

/-! ### Tab/session operations -/

/-- `addTab`: the fresh id is `Date.now().toString()`; the clock reading is
the explicit parameter `now`. -/
def addTab (s : WState) (now : Nat) : WState :=
  let newTab : Tab := { id := toString now, name := "New Query", content := "",
                        queryResult := none, executionTime := none }
  { s with tabs := s.tabs ++ [newTab], activeTab := newTab.id }

/-- `removeTab(id)`: filter the tab out; if it was active, fall back to the
first remaining tab's id, or `""` if none remain. -/
def removeTab (s : WState) (id : String) : WState :=
  let newTabs := s.tabs.filter (fun tab => tab.id != id)
  if s.activeTab == id then
    { s with tabs := newTabs,
             activeTab := match newTabs with
               | t :: _ => t.id
               | [] => "" }
  else { s with tabs := newTabs }

/-- `updateTabContent(id, content)`. -/
def updateTabContent (s : WState) (id content : String) : WState :=
  { s with tabs := s.tabs.map (fun tab =>
      if tab.id == id then { tab with content := content } else tab) }

/-- `updateTabName(id, name)`. -/
def updateTabName (s : WState) (id name : String) : WState :=
  { s with tabs := s.tabs.map (fun tab =>
      if tab.id == id then { tab with name := name } else tab) }

/-- `setActiveTab(id)` as the tab-strip buttons call it. -/
def setActiveTab (s : WState) (id : String) : WState :=
  { s with activeTab := id }

/-! ### Query execution -/

/-- Outcome of the `fetch` to the query endpoint, as far as `runQuery`
distinguishes it: the request or JSON decoding throws; the response has a
non-success status (`!response.ok`); or it decodes, with `result` the decoded
payload field (possibly `undefined` when absent). -/
inductive FetchOutcome where
  | networkError : FetchOutcome
  | badStatus : FetchOutcome
  | success : JSVal → FetchOutcome

/-- Everything observable about one `runQuery` call: the final state, the
query text dispatched to the service (`none` when no request was sent),
whether the loading state was entered, and whether `alert` fired. -/
structure RunOutcome where
  state : WState
  dispatched : Option String
  enteredLoading : Bool
  alerted : Bool

/-- The synthetic error result substituted on every failure path. -/
def errorResult : QueryResult :=
  { columns := [{ name := .str "", type := ColumnType.UNKNOWN }],
    rows := [.arr [.str "Failed to execute query. Please try again."]] }

/-- Write a query result and execution time onto the active tab. -/
def recordResult (s : WState) (qr : QueryResult) (et : Int) : List Tab :=
  s.tabs.map (fun tab =>
    if tab.id == s.activeTab then { tab with queryResult := some qr, executionTime := some et }
    else tab)

/-- `runQuery(queries)`: validation, dispatch, normalization, result/error
write-back and cleanup.  `performance.now()` readings at start and at
write-back are the parameters `startTime` and `endTime`. -/
def runQuery (fetch : FetchOutcome) (startTime endTime : Int) (s : WState)
    (queries : String) : RunOutcome :=
  match s.tabs.find? (fun tab => tab.id == s.activeTab) with
  | none => { state := s, dispatched := none, enteredLoading := false, alerted := false }
  | some _ =>
    if jsTrim queries == "" then
      { state := s, dispatched := none, enteredLoading := false, alerted := true }
    else
      let et := endTime - startTime
      let failState : WState :=
        { s with tabs := recordResult s errorResult et, sortConfig := none, isLoading := false }
      match fetch with
      | .networkError =>
        { state := failState, dispatched := some queries, enteredLoading := true, alerted := false }
      | .badStatus =>
        { state := failState, dispatched := some queries, enteredLoading := true, alerted := false }
      | .success data =>
        match normalizeResponse data with
        | .error _ =>
          { state := failState, dispatched := some queries, enteredLoading := true,
            alerted := false }
        | .ok qr =>
          let widths := if s.columnWidths.length == 0 then qr.columns.map (fun _ => (150 : Nat))
                        else s.columnWidths
          { state := { s with tabs := recordResult s qr et, sortConfig := none,
                              isLoading := false, columnWidths := widths },
            dispatched := some queries, enteredLoading := true, alerted := false }

/-- The statement list `handleRunSelected` builds from a tab's full content:
split on `";"`, trim each piece, drop empties, rejoin with `"; "`. -/
def joinQueries (content : String) : String :=
  jsJoin "; " (((jsSplit ';' content).map jsTrim).filter (fun q => 0 < q.length))

/-- `handleRunSelected()`: run the selection when it is non-blank, otherwise
the active tab's joined statement list. -/
def handleRunSelected (fetch : FetchOutcome) (startTime endTime : Int)
    (selectedText : String) (s : WState) : RunOutcome :=
  if jsTrim selectedText != "" then runQuery fetch startTime endTime s selectedText
  else
    match s.tabs.find? (fun tab => tab.id == s.activeTab) with
    | some tab =>
      let allQueries := joinQueries tab.content
      if allQueries != "" then runQuery fetch startTime endTime s allQueries
      else { state := s, dispatched := none, enteredLoading := false, alerted := true }
    | none => { state := s, dispatched := none, enteredLoading := false, alerted := false }

/-! ### Sorting -/

/-- The direction `handleSort` chooses: `desc` exactly when the current
`sortConfig` already targets this column ascending. -/
def nextDirection (sortConfig : Option SortConfig) (columnIndex : Nat) : Direction :=
  match sortConfig with
  | some sc => if sc.key == columnIndex && sc.direction == Direction.asc then .desc else .asc
  | none => .asc

/-- The comparator `handleSort` passes to `Array.prototype.sort`, with the
environment's `localeCompare` ordering supplied as `lc`. -/
def rowCompare (lc : String → String → Int) (direction : Direction) (columnIndex : Nat)
    (a b : JSVal) : Int :=
  match jsIndex a columnIndex, jsIndex b columnIndex with
  | .num m, .num n =>
    match direction with
    | .asc => m - n
    | .desc => n - m
  | aVal, bVal =>
    match direction with
    | .asc => lc (jsToString aVal) (jsToString bVal)
    | .desc => lc (jsToString bVal) (jsToString aVal)

/-- `[...rows].sort(cmp)`: modern JS `Array.prototype.sort` is a stable
comparison sort, modelled by stable insertion sort on the comparator's
non-positive outcomes. -/
def sortedRows (lc : String → String → Int) (direction : Direction) (columnIndex : Nat)
    (rows : List JSVal) : List JSVal :=
  rows.insertionSort (fun a b => rowCompare lc direction columnIndex a b ≤ 0)

/-- `handleSort(columnIndex)`: toggle the direction, store the new
`sortConfig`, and reorder the active tab's result rows. -/
def handleSort (lc : String → String → Int) (s : WState) (columnIndex : Nat) : WState :=
  let direction := nextDirection s.sortConfig columnIndex
  { s with
    sortConfig := some { key := columnIndex, direction := direction },
    tabs := s.tabs.map (fun tab =>
      if tab.id == s.activeTab then
        match tab.queryResult with
        | some qr =>
          { tab with
            queryResult := some ({ qr with rows := sortedRows lc direction columnIndex qr.rows }) }
        | none => tab
      else tab) }

/-- The active tab's result rows, `[]` when there is no active tab or no
result; used to state concrete sorting evaluations. -/
def activeRows (s : WState) : List JSVal :=
  match s.tabs.find? (fun tab => tab.id == s.activeTab) with
  | some tab =>
    match tab.queryResult with
    | some qr => qr.rows
    | none => []
  | none => []

/-! ### Statement-level helpers -/

/-- A typed-header element: an object carrying a `name` key and a `type` key
whose value is a string (so that `toUpperCase` succeeds on it). -/
def isTypedColEntry : JSVal → Bool
  | .obj fields =>
    (fields.find? (fun p => p.1 == "name")).isSome &&
      (match (fields.find? (fun p => p.1 == "type")).map Prod.snd with
       | some (.str _) => true
       | _ => false)
  | _ => false

/-- Total property read: the value of key `k`, `undefined` when absent or the
value is not an object. -/
def propD (v : JSVal) (k : String) : JSVal :=
  match v with
  | .obj fields => ((fields.find? (fun p => p.1 == k)).map Prod.snd).getD .undefined
  | _ => .undefined

/-- The string carried at key `k`, `""` when it is not a string. -/
def propStrD (v : JSVal) (k : String) : String :=
  match propD v k with
  | .str s => s
  | _ => ""

/-- The active-pointer invariant the session maintains: an empty tab set
carries the empty active id, and a non-empty one an active id drawn from the
set. -/
def activeInv (s : WState) : Prop :=
  (tabIds s = [] → s.activeTab = "") ∧ (tabIds s ≠ [] → s.activeTab ∈ tabIds s)

/-- The session-level operations of the tab manager, with the `Date.now()`
clock reading of `addTab` made an explicit field. -/
inductive SessionOp where
  | add : Nat → SessionOp
  | remove : String → SessionOp
  | rename : String → String → SessionOp
  | edit : String → String → SessionOp
  | activate : String → SessionOp

/-- Apply one session operation. -/
def applyOp (s : WState) : SessionOp → WState
  | .add now => addTab s now
  | .remove id => removeTab s id
  | .rename id name => updateTabName s id name
  | .edit id content => updateTabContent s id content
  | .activate id => setActiveTab s id

/-- The ids the `add` operations of a trace generate, in order. -/
def addedIds : List SessionOp → List String
  | [] => []
  | .add now :: ops => toString now :: addedIds ops
  | _ :: ops => addedIds ops

/-- A concrete state whose active tab holds a one-column numeric result with
rows `[[3], [1], [2]]`, for evaluating sorting. -/
def demoSortState : WState :=
  { tabs := [{ id := "1", name := "New Query", content := "", executionTime := none,
               queryResult := some { columns := [{ name := .str "a", type := ColumnType.NUMBER }],
                                     rows := [.arr [.num 3], .arr [.num 1], .arr [.num 2]] } }],
    activeTab := "1", isLoading := false, sortConfig := none, columnWidths := [150] }

/-- A concrete state whose active tab's single column mixes numeric and
string cells: rows `[[5], ["a"], [3]]`. -/
def demoMixedState : WState :=
  { tabs := [{ id := "1", name := "New Query", content := "", executionTime := none,
               queryResult := some { columns := [{ name := .str "a", type := ColumnType.UNKNOWN }],
                                     rows := [.arr [.num 5], .arr [.str "a"], .arr [.num 3]] } }],
    activeTab := "1", isLoading := false, sortConfig := none, columnWidths := [150] }

/-! ### Theorems -/

/-- C1: a payload whose first row is the single empty string produces exactly
one column `{name: "", type: UNKNOWN}`; when a second payload row exists the
result's rows are exactly `[second row]`, that row kept as-is and all later
rows dropped, and otherwise the result has no rows.  In particular
`[[""], ["boom"]]` yields columns `[{name: "", type: UNKNOWN}]` and rows
`[["boom"]]`. -/
theorem sentinel_shape_normalization :
    (∀ rest : List JSVal,
      normalizeResponse (.arr (.arr [.str ""] :: rest)) =
        .ok { columns := [{ name := .str "", type := ColumnType.UNKNOWN }],
              rows := rest.take 1 }) ∧
    normalizeResponse (.arr [.arr [.str ""], .arr [.str "boom"]]) =
      .ok { columns := [{ name := .str "", type := ColumnType.UNKNOWN }],
            rows := [.arr [.str "boom"]] } := by
  refine ⟨fun rest => ?_, rfl⟩
  cases rest <;> rfl

/-- Auxiliary for C5: on a list of typed-header elements, the column mapping
succeeds and produces each element's `name` with its upper-cased `type`. -/
theorem mapTypedColumns_eq_of_all (l : List JSVal)
    (h : ∀ v ∈ l, isTypedColEntry v = true) :
    mapTypedColumns l =
      .ok (l.map (fun v => { name := propD v "name", type := jsUpper (propStrD v "type") })) := by
  induction l with
  | nil => rfl
  | cons v tl ih =>
    have hv : isTypedColEntry v = true := h v (List.mem_cons_self v tl)
    have htl := ih (fun w hw => h w (List.mem_cons_of_mem v hw))
    cases v with
    | obj fields =>
      simp only [isTypedColEntry, Bool.and_eq_true] at hv
      obtain ⟨hname, htype⟩ := hv
      cases hfd : (fields.find? (fun p => p.1 == "type")).map Prod.snd with
      | none => rw [hfd] at htype; simp at htype
      | some w =>
        cases w with
        | str t =>
          cases hnd : (fields.find? (fun p => p.1 == "name")).map Prod.snd with
          | none =>
            rw [Option.isSome_iff_exists] at hname
            obtain ⟨pr, hpr⟩ := hname
            rw [hpr] at hnd
            simp at hnd
          | some nv =>
            simp only [mapTypedColumns, getProp, hnd, hfd, Option.getD_some,
              jsToUpperCase, htl]
            simp [Bind.bind, Except.bind, Pure.pure, Except.pure, propD, propStrD, hnd, hfd]
        | undefined => rw [hfd] at htype; simp at htype
        | null => rw [hfd] at htype; simp at htype
        | bool b => rw [hfd] at htype; simp at htype
        | num n => rw [hfd] at htype; simp at htype
        | arr xs => rw [hfd] at htype; simp at htype
        | obj g => rw [hfd] at htype; simp at htype
    | undefined => simp [isTypedColEntry] at hv
    | null => simp [isTypedColEntry] at hv
    | bool b => simp [isTypedColEntry] at hv
    | num n => simp [isTypedColEntry] at hv
    | str a => simp [isTypedColEntry] at hv
    | arr xs => simp [isTypedColEntry] at hv

/-- C5: when the first raw row is non-empty and every element carries a
`name` and a string-valued `type`, each element becomes a column with that
name and the type string upper-cased — unrecognized type strings are kept
literally — and the remaining raw rows become the data rows. -/
theorem typed_header_normalization (firstRow rest : List JSVal)
    (hne : firstRow ≠ [])
    (hall : ∀ v ∈ firstRow, isTypedColEntry v = true) :
    normalizeResponse (.arr (.arr firstRow :: rest)) =
      .ok { columns := firstRow.map (fun v =>
              { name := propD v "name", type := jsUpper (propStrD v "type") }),
            rows := rest } := by
  cases firstRow with
  | nil => exact absurd rfl hne
  | cons v tl =>
    have hv : isTypedColEntry v = true := hall v (List.mem_cons_self v tl)
    cases v with
    | obj fields =>
      simp only [isTypedColEntry, Bool.and_eq_true] at hv
      obtain ⟨hname, htype⟩ := hv
      have hhasname : hasProp (.obj fields) "name" = true := by
        rw [Option.isSome_iff_exists] at hname
        obtain ⟨pr, hpr⟩ := hname
        have := List.find?_some hpr
        have hmem := List.mem_of_find?_eq_some hpr
        simp only [hasProp, List.any_eq_true]
        exact ⟨pr, hmem, this⟩
      have hhastype : hasProp (.obj fields) "type" = true := by
        cases hfd : fields.find? (fun p => p.1 == "type") with
        | none => rw [hfd] at htype; simp at htype
        | some pr =>
          have := List.find?_some hfd
          have hmem := List.mem_of_find?_eq_some hfd
          simp only [hasProp, List.any_eq_true]
          exact ⟨pr, hmem, this⟩
      have hmap := mapTypedColumns_eq_of_all (JSVal.obj fields :: tl) hall
      simp only [normalizeResponse, List.headD_cons]
      rw [if_neg (by simp [isEmptyString])]
      rw [if_pos (by simp [typeofIsObject, isNull, hhasname, hhastype])]
      rw [hmap]
      rfl
    | undefined => simp [isTypedColEntry] at hv
    | null => simp [isTypedColEntry] at hv
    | bool b => simp [isTypedColEntry] at hv
    | num n => simp [isTypedColEntry] at hv
    | str a => simp [isTypedColEntry] at hv
    | arr xs => simp [isTypedColEntry] at hv

/-- Witness for C5: the spec's typed-header vector
`[[{name: "id", type: "number"}], [1], [2]]` yields columns
`[{name: "id", type: NUMBER}]` and rows `[[1], [2]]`. -/
theorem typed_header_normalization_witness :
    normalizeResponse (.arr [.arr [.obj [("name", .str "id"), ("type", .str "number")]],
        .arr [.num 1], .arr [.num 2]]) =
      .ok { columns := [{ name := .str "id", type := ColumnType.NUMBER }],
            rows := [.arr [.num 1], .arr [.num 2]] } := by
  have h := typed_header_normalization
    [.obj [("name", .str "id"), ("type", .str "number")]]
    [.arr [.num 1], .arr [.num 2]]
    (by simp) (by decide)
  exact h

/-- C8: a blank (empty or whitespace-only) query text is rejected before the
service is contacted: nothing is dispatched, the loading state is never
entered, the state is unchanged, and (when an active tab exists, so the
handler gets past its guard) the user is alerted. -/
theorem empty_query_rejected (fetch : FetchOutcome) (startTime endTime : Int)
    (s : WState) (q : String) (h : jsTrim q = "") :
    (runQuery fetch startTime endTime s q).state = s ∧
    (runQuery fetch startTime endTime s q).dispatched = none ∧
    (runQuery fetch startTime endTime s q).enteredLoading = false ∧
    ((s.tabs.find? (fun tab => tab.id == s.activeTab)).isSome →
      (runQuery fetch startTime endTime s q).alerted = true) := by
  cases hf : s.tabs.find? (fun tab => tab.id == s.activeTab) with
  | none => simp [runQuery, hf]
  | some t => simp [runQuery, hf, h]

/-- Witness for C8: a whitespace-only query against the initial state. -/
theorem empty_query_rejected_witness :
    (runQuery .networkError 0 7 initialState "   ").state = initialState ∧
    (runQuery .networkError 0 7 initialState "   ").dispatched = none ∧
    (runQuery .networkError 0 7 initialState "   ").enteredLoading = false ∧
    ((initialState.tabs.find? (fun tab => tab.id == initialState.activeTab)).isSome →
      (runQuery .networkError 0 7 initialState "   ").alerted = true) :=
  empty_query_rejected .networkError 0 7 initialState "   " (by decide)

/-- C2: on every failure path — request failure, non-success status, or a
payload failing the structural checks (not an array, empty, or first element
not an array, all of which make `normalizeResponse` fail) — the active tab's
result is replaced by the synthetic one-column error result, a non-negative
execution time is recorded on it, the sort configuration is cleared, and the
loading flag is back to false; no failure escapes. -/
theorem failure_yields_error_result (fetch : FetchOutcome) (startTime endTime : Int)
    (s : WState) (q : String) (t0 : Tab)
    (hfind : s.tabs.find? (fun tab => tab.id == s.activeTab) = some t0)
    (hq : jsTrim q ≠ "")
    (hclock : startTime ≤ endTime)
    (hfail : fetch = .networkError ∨ fetch = .badStatus ∨
      ∃ d e, fetch = .success d ∧ normalizeResponse d = .error e) :
    (∃ tab ∈ (runQuery fetch startTime endTime s q).state.tabs, tab.id = s.activeTab) ∧
    (∀ tab ∈ (runQuery fetch startTime endTime s q).state.tabs, tab.id = s.activeTab →
      tab.queryResult = some errorResult ∧
      ∃ et, tab.executionTime = some et ∧ 0 ≤ et) ∧
    (runQuery fetch startTime endTime s q).state.sortConfig = none ∧
    (runQuery fetch startTime endTime s q).state.isLoading = false := by
  have hid : t0.id = s.activeTab := by simpa using List.find?_some hfind
  have hmem : t0 ∈ s.tabs := List.mem_of_find?_eq_some hfind
  have hstate : (runQuery fetch startTime endTime s q).state =
      { s with tabs := recordResult s errorResult (endTime - startTime),
               sortConfig := none, isLoading := false } := by
    simp only [runQuery, hfind]
    rw [if_neg (by simp [hq])]
    rcases hfail with h | h | ⟨d, e, h, hn⟩ <;> subst h
    · rfl
    · rfl
    · simp only [hn]
  rw [hstate]
  refine ⟨?_, ?_, rfl, rfl⟩
  · simp only [recordResult]
    refine ⟨_, List.mem_map_of_mem _ hmem, ?_⟩
    simp [hid]
  · intro tab htab hteq
    simp only [recordResult, List.mem_map] at htab
    obtain ⟨x, hx, rfl⟩ := htab
    by_cases hxid : (x.id == s.activeTab) = true
    · exact ⟨by simp [hxid], endTime - startTime, by simp [hxid], sub_nonneg.mpr hclock⟩
    · rw [if_neg hxid] at hteq
      exact absurd hteq (by simpa using hxid)

/-- Witness for C2: a network failure on a non-blank query against the
initial state. -/
theorem failure_yields_error_result_witness :
    (∃ tab ∈ (runQuery .networkError 2 5 initialState "SELECT 1").state.tabs,
      tab.id = initialState.activeTab) ∧
    (∀ tab ∈ (runQuery .networkError 2 5 initialState "SELECT 1").state.tabs,
      tab.id = initialState.activeTab →
      tab.queryResult = some errorResult ∧
      ∃ et, tab.executionTime = some et ∧ 0 ≤ et) ∧
    (runQuery .networkError 2 5 initialState "SELECT 1").state.sortConfig = none ∧
    (runQuery .networkError 2 5 initialState "SELECT 1").state.isLoading = false :=
  failure_yields_error_result .networkError 2 5 initialState "SELECT 1"
    { id := "1", name := "New Query", content := "", queryResult := none,
      executionTime := none }
    (by rfl) (by decide) (by decide) (Or.inl rfl)

/-- Auxiliary: `removeTab` always leaves the filtered tab list. -/
theorem removeTab_tabs (s : WState) (id : String) :
    (removeTab s id).tabs = s.tabs.filter (fun tab => tab.id != id) := by
  simp only [removeTab]
  split <;> rfl

/-- Auxiliary: filtering a tab list by id commutes with taking ids. -/
theorem map_id_filter (l : List Tab) (id : String) :
    (l.filter (fun t => t.id != id)).map Tab.id = (l.map Tab.id).filter (fun i => i != id) := by
  induction l with
  | nil => rfl
  | cons t rest ih =>
    by_cases h : (t.id != id) = true <;> simp [List.filter_cons, h, ih]

/-- Auxiliary for C3: one removal preserves the active-pointer invariant. -/
theorem activeInv_removeTab (s : WState) (id : String) (hinv : activeInv s) :
    activeInv (removeTab s id) := by
  obtain ⟨hemp, hne⟩ := hinv
  have htabs := removeTab_tabs s id
  by_cases hb : (s.activeTab == id) = true
  · have hact : (removeTab s id).activeTab =
        (match s.tabs.filter (fun tab => tab.id != id) with
         | t :: _ => t.id
         | [] => "") := by
      simp only [removeTab, hb, if_true]
    cases hfil : s.tabs.filter (fun tab => tab.id != id) with
    | nil =>
      refine ⟨fun _ => ?_, fun h => ?_⟩
      · rw [hact, hfil]
      · exact absurd (by simp [tabIds, htabs, hfil]) h
    | cons t rest =>
      refine ⟨fun h => ?_, fun _ => ?_⟩
      · rw [tabIds, htabs, hfil] at h
        simp at h
      · rw [hact, hfil]
        simp [tabIds, htabs, hfil]
  · have hact : (removeTab s id).activeTab = s.activeTab := by
      simp [removeTab, hb]
    have hactne : s.activeTab ≠ id := by simpa using hb
    constructor
    · intro h
      by_cases h0 : tabIds s = []
      · rw [hact]; exact hemp h0
      · obtain ⟨t, ht, hteq⟩ := List.mem_map.mp (hne h0)
        have hmemf : t ∈ s.tabs.filter (fun tab => tab.id != id) :=
          List.mem_filter.mpr ⟨ht, by simp [hteq, hactne]⟩
        rw [tabIds, htabs] at h
        rw [List.map_eq_nil_iff] at h
        rw [h] at hmemf
        exact absurd hmemf (List.not_mem_nil t)
    · intro h
      have h0 : tabIds s ≠ [] := by
        intro h1
        rw [tabIds, List.map_eq_nil_iff] at h1
        apply h
        simp [tabIds, htabs, h1]
      obtain ⟨t, ht, hteq⟩ := List.mem_map.mp (hne h0)
      have hmemf : t ∈ s.tabs.filter (fun tab => tab.id != id) :=
        List.mem_filter.mpr ⟨ht, by simp [hteq, hactne]⟩
      rw [hact, tabIds, htabs]
      exact List.mem_map.mpr ⟨t, hmemf, hteq⟩

/-- Auxiliary for C3: any sequence of removals preserves the invariant. -/
theorem activeInv_foldl_removeTab (ids : List String) :
    ∀ s : WState, activeInv s → activeInv (ids.foldl removeTab s) := by
  induction ids with
  | nil => exact fun s h => h
  | cons i rest ih => exact fun s h => ih _ (activeInv_removeTab s i h)

/-- C3: starting from a state satisfying the active-pointer invariant,
`removeTab` of an absent id is a no-op; removal preserves the invariant;
when the active tab is removed the new active id is the first remaining
tab's id, or `""` when none remain; and after any sequence of removals a
non-empty tab set has its active pointer on a member. -/
theorem removeTab_active_pointer (s : WState) (id : String) (hinv : activeInv s) :
    (id ∉ tabIds s → removeTab s id = s) ∧
    activeInv (removeTab s id) ∧
    (s.activeTab = id →
      (removeTab s id).activeTab = ((removeTab s id).tabs.head?.map Tab.id).getD "") ∧
    (∀ ids : List String, (ids.foldl removeTab s).tabs ≠ [] →
      (ids.foldl removeTab s).activeTab ∈ tabIds (ids.foldl removeTab s)) := by
  obtain ⟨hemp, hne⟩ := hinv
  refine ⟨?_, activeInv_removeTab s id ⟨hemp, hne⟩, ?_, ?_⟩
  · intro habs
    have hfil : s.tabs.filter (fun tab => tab.id != id) = s.tabs := by
      apply List.filter_eq_self.mpr
      intro t ht
      have : t.id ∈ tabIds s := List.mem_map.mpr ⟨t, ht, rfl⟩
      simp only [bne_iff_ne, ne_eq]
      exact fun h => habs (h ▸ this)
    by_cases hb : (s.activeTab == id) = true
    · have hact : s.activeTab = id := by simpa using hb
      by_cases h0 : tabIds s = []
      · have htabs0 : s.tabs = [] := by
          rwa [tabIds, List.map_eq_nil_iff] at h0
        have hact0 : s.activeTab = "" := hemp h0
        simp only [removeTab, hb, if_true, htabs0, List.filter_nil]
        cases s with
        | mk tabs active il sc cw =>
          simp only at htabs0 hact0
          simp [htabs0, hact0]
      · exact absurd (hact ▸ hne h0) habs
    · simp [removeTab, hb, hfil]
  · intro hact
    have hb : (s.activeTab == id) = true := by simp [hact]
    have htabs := removeTab_tabs s id
    have h1 : (removeTab s id).activeTab =
        (match s.tabs.filter (fun tab => tab.id != id) with
         | t :: _ => t.id
         | [] => "") := by
      simp only [removeTab, hb, if_true]
    rw [h1, htabs]
    cases s.tabs.filter (fun tab => tab.id != id) <;> rfl
  · intro ids hne'
    have hinv' := activeInv_foldl_removeTab ids s ⟨hemp, hne⟩
    apply hinv'.2
    intro h1
    rw [tabIds, List.map_eq_nil_iff] at h1
    exact hne' h1

/-- Witness for C3: removing an id absent from the initial state. -/
theorem removeTab_active_pointer_witness :
    ("2" ∉ tabIds initialState → removeTab initialState "2" = initialState) ∧
    activeInv (removeTab initialState "2") ∧
    (initialState.activeTab = "2" →
      (removeTab initialState "2").activeTab =
        ((removeTab initialState "2").tabs.head?.map Tab.id).getD "") ∧
    (∀ ids : List String, (ids.foldl removeTab initialState).tabs ≠ [] →
      (ids.foldl removeTab initialState).activeTab ∈
        tabIds (ids.foldl removeTab initialState)) :=
  removeTab_active_pointer initialState "2" (by unfold activeInv; decide)

/-- Auxiliary: `addTab` appends one id. -/
theorem tabIds_addTab (s : WState) (now : Nat) :
    tabIds (addTab s now) = tabIds s ++ [toString now] := by
  simp [tabIds, addTab]

/-- Auxiliary: `removeTab` filters the id list. -/
theorem tabIds_removeTab (s : WState) (id : String) :
    tabIds (removeTab s id) = (tabIds s).filter (fun i => i != id) := by
  rw [tabIds, removeTab_tabs, map_id_filter, tabIds]

/-- Auxiliary: a map that rewrites some tabs but never their ids leaves the
id list unchanged. -/
theorem map_id_ite (l : List Tab) (p : Tab → Bool) (f : Tab → Tab)
    (hf : ∀ t, (f t).id = t.id) :
    (l.map (fun t => if p t then f t else t)).map Tab.id = l.map Tab.id := by
  induction l with
  | nil => rfl
  | cons t rest ih =>
    by_cases h : p t = true <;> simp [h, hf, ih]

/-- Auxiliary: renaming leaves the id list unchanged. -/
theorem tabIds_updateTabName (s : WState) (id name : String) :
    tabIds (updateTabName s id name) = tabIds s := by
  simp only [tabIds, updateTabName]
  exact map_id_ite s.tabs _ _ (fun t => rfl)

/-- Auxiliary: editing content leaves the id list unchanged. -/
theorem tabIds_updateTabContent (s : WState) (id content : String) :
    tabIds (updateTabContent s id content) = tabIds s := by
  simp only [tabIds, updateTabContent]
  exact map_id_ite s.tabs _ _ (fun t => rfl)

/-- Auxiliary for C4: along a trace whose generated ids are pairwise
distinct and fresh for the starting set, the id list stays duplicate-free,
and every id present came from the start or from an `add`. -/
theorem tabIds_foldl_nodup (ops : List SessionOp) :
    ∀ s : WState, (tabIds s).Nodup → (addedIds ops).Nodup →
    (∀ i ∈ addedIds ops, i ∉ tabIds s) →
    (tabIds (ops.foldl applyOp s)).Nodup ∧
    (∀ i ∈ tabIds (ops.foldl applyOp s), i ∈ tabIds s ∨ i ∈ addedIds ops) := by
  induction ops with
  | nil => exact fun s hs _ _ => ⟨hs, fun i hi => Or.inl hi⟩
  | cons op rest ih =>
    intro s hs hadd hfresh
    cases op with
    | add now =>
      have hnotin : toString now ∉ tabIds s := hfresh _ (by simp [addedIds])
      have hnowrest : toString now ∉ addedIds rest := by
        rw [addedIds, List.nodup_cons] at hadd
        exact hadd.1
      have haddrest : (addedIds rest).Nodup := by
        rw [addedIds, List.nodup_cons] at hadd
        exact hadd.2
      have hs' : (tabIds (addTab s now)).Nodup := by
        rw [tabIds_addTab]
        simp only [List.nodup_append, List.nodup_singleton, List.disjoint_singleton]
        exact ⟨hs, trivial, hnotin⟩
      have hfresh' : ∀ i ∈ addedIds rest, i ∉ tabIds (addTab s now) := by
        intro i hi
        rw [tabIds_addTab]
        simp only [List.mem_append, List.mem_singleton]
        rintro (h | h)
        · exact hfresh i (by simp [addedIds, hi]) h
        · exact hnowrest (h ▸ hi)
      obtain ⟨h1, h2⟩ := ih (addTab s now) hs' haddrest hfresh'
      refine ⟨h1, fun i hi => ?_⟩
      rcases h2 i hi with h | h
      · rw [tabIds_addTab, List.mem_append, List.mem_singleton] at h
        rcases h with h | h
        · exact Or.inl h
        · exact Or.inr (by simp [addedIds, h])
      · exact Or.inr (by simp [addedIds, h])
    | remove id =>
      have hs' : (tabIds (removeTab s id)).Nodup := by
        rw [tabIds_removeTab]
        exact hs.filter _
      have hsub : ∀ i ∈ tabIds (removeTab s id), i ∈ tabIds s := by
        intro i hi
        rw [tabIds_removeTab] at hi
        exact (List.mem_filter.mp hi).1
      have hfresh' : ∀ i ∈ addedIds rest, i ∉ tabIds (removeTab s id) := by
        intro i hi hmem
        exact hfresh i (by simpa [addedIds] using hi) (hsub i hmem)
      obtain ⟨h1, h2⟩ := ih (removeTab s id) hs' (by simpa [addedIds] using hadd) hfresh'
      refine ⟨h1, fun i hi => ?_⟩
      rcases h2 i hi with h | h
      · exact Or.inl (hsub i h)
      · exact Or.inr (by simpa [addedIds] using h)
    | rename id name =>
      have heq := tabIds_updateTabName s id name
      obtain ⟨h1, h2⟩ := ih (updateTabName s id name) (heq ▸ hs)
        (by simpa [addedIds] using hadd)
        (fun i hi => heq ▸ hfresh i (by simpa [addedIds] using hi))
      exact ⟨h1, fun i hi => (h2 i hi).imp (fun h => heq ▸ h)
        (fun h => by simpa [addedIds] using h)⟩
    | edit id content =>
      have heq := tabIds_updateTabContent s id content
      obtain ⟨h1, h2⟩ := ih (updateTabContent s id content) (heq ▸ hs)
        (by simpa [addedIds] using hadd)
        (fun i hi => heq ▸ hfresh i (by simpa [addedIds] using hi))
      exact ⟨h1, fun i hi => (h2 i hi).imp (fun h => heq ▸ h)
        (fun h => by simpa [addedIds] using h)⟩
    | activate id =>
      obtain ⟨h1, h2⟩ := ih (setActiveTab s id) hs
        (by simpa [addedIds] using hadd)
        (fun i hi => hfresh i (by simpa [addedIds] using hi))
      exact ⟨h1, fun i hi => (h2 i hi).imp (fun h => h)
        (fun h => by simpa [addedIds] using h)⟩

/-- C4 (amended): `addTab` appends a tab with default name "New Query",
empty content, no result and no timing, its id the clock reading's decimal
string, and makes it active; and, provided every id the clock generates
along a trace is fresh — pairwise distinct and absent from the starting tab
set — the tab ids remain pairwise distinct after any sequence of session
operations (ids themselves are never rewritten by any operation).  The
freshness proviso is forced by the counterexample: `Date.now()` can repeat
within one millisecond. -/
theorem addTab_spec_and_unique :
    (∀ (s : WState) (now : Nat),
      (addTab s now).tabs = s.tabs ++
        [{ id := toString now, name := "New Query", content := "",
           queryResult := none, executionTime := none }] ∧
      (addTab s now).activeTab = toString now) ∧
    (∀ (ops : List SessionOp) (s : WState),
      (tabIds s).Nodup → (addedIds ops).Nodup →
      (∀ i ∈ addedIds ops, i ∉ tabIds s) →
      (tabIds (ops.foldl applyOp s)).Nodup) :=
  ⟨fun _ _ => ⟨rfl, rfl⟩,
   fun ops s hs ha hf => (tabIds_foldl_nodup ops s hs ha hf).1⟩

/-- Counterexample to C4 as stated: two `addTab` calls within the same
millisecond (`Date.now()` reading 7 both times) produce two tabs with the
same id `"7"`, so tab ids are not always pairwise distinct. -/
theorem addTab_duplicate_id :
    tabIds (addTab (addTab initialState 7) 7) = ["1", "7", "7"] ∧
    ¬ (tabIds (addTab (addTab initialState 7) 7)).Nodup := by
  constructor
  · decide
  · decide

/-- C6: the chosen direction is descending exactly when the current sort
configuration already targets the same column ascending — so ascending when
there is no configuration, another column is targeted, or it is already
descending; and on the numeric column `[3,1,2]` three consecutive `sort(0)`
calls yield `[1,2,3]`, then `[3,2,1]`, then `[1,2,3]`. -/
theorem sort_direction_toggle :
    (∀ (sc : Option SortConfig) (idx : Nat),
      nextDirection sc idx = Direction.desc ↔
        sc = some { key := idx, direction := Direction.asc }) ∧
    activeRows (handleSort lcDefault demoSortState 0) =
      [.arr [.num 1], .arr [.num 2], .arr [.num 3]] ∧
    activeRows (handleSort lcDefault (handleSort lcDefault demoSortState 0) 0) =
      [.arr [.num 3], .arr [.num 2], .arr [.num 1]] ∧
    activeRows (handleSort lcDefault
        (handleSort lcDefault (handleSort lcDefault demoSortState 0) 0) 0) =
      [.arr [.num 1], .arr [.num 2], .arr [.num 3]] := by
  refine ⟨?_, rfl, rfl, rfl⟩
  intro sc idx
  cases sc with
  | none => simp [nextDirection]
  | some c =>
    cases c with
    | mk k d => cases d <;> by_cases h : k = idx <;> simp [nextDirection, h]

/-- C7: the comparator compares numerically exactly when both cells are
numbers and otherwise compares the cells' `String(...)` renderings through
the locale ordering, in direction order; being a total function into the
integers it is deterministic and cannot fail, and a concrete mixed
numeric/string column sorts accordingly. -/
theorem sort_comparator_type_aware :
    (∀ (lc : String → String → Int) (dir : Direction) (idx : Nat) (a b : JSVal) (m n : Int),
      jsIndex a idx = .num m → jsIndex b idx = .num n →
      rowCompare lc dir idx a b =
        (match dir with | .asc => m - n | .desc => n - m)) ∧
    (∀ (lc : String → String → Int) (dir : Direction) (idx : Nat) (a b : JSVal),
      (isNum (jsIndex a idx) && isNum (jsIndex b idx)) = false →
      rowCompare lc dir idx a b =
        (match dir with
         | .asc => lc (jsToString (jsIndex a idx)) (jsToString (jsIndex b idx))
         | .desc => lc (jsToString (jsIndex b idx)) (jsToString (jsIndex a idx)))) ∧
    activeRows (handleSort lcDefault demoMixedState 0) =
      [.arr [.num 3], .arr [.num 5], .arr [.str "a"]] := by
  refine ⟨?_, ?_, rfl⟩
  · intro lc dir idx a b m n ha hb
    unfold rowCompare
    rw [ha, hb]
  · intro lc dir idx a b h
    unfold rowCompare
    cases ha : jsIndex a idx <;> cases hb : jsIndex b idx <;>
      first
        | rfl
        | (rw [ha, hb] at h; simp [isNum] at h)

/-- Witness for C7's universally quantified parts at concrete cells. -/
theorem sort_comparator_type_aware_witness :
    rowCompare lcDefault Direction.asc 0 (.arr [.num 5]) (.arr [.num 3]) = 5 - 3 ∧
    rowCompare lcDefault Direction.asc 0 (.arr [.num 5]) (.arr [.str "a"]) =
      lcDefault (jsToString (jsIndex (.arr [.num 5]) 0)) (jsToString (jsIndex (.arr [.str "a"]) 0)) :=
  ⟨sort_comparator_type_aware.1 lcDefault Direction.asc 0 (.arr [.num 5]) (.arr [.num 3])
      5 3 rfl rfl,
   sort_comparator_type_aware.2.1 lcDefault Direction.asc 0 (.arr [.num 5]) (.arr [.str "a"])
      (by decide)⟩

/-- C10: sorting reorders only — after `handleSort`, every tab that held a
result still holds one with the same columns and with rows a permutation of
the rows it held before (no row added, dropped or modified). -/
theorem handleSort_rows_permutation (lc : String → String → Int) (s : WState)
    (idx i : Nat) (h : i < s.tabs.length) (h' : i < (handleSort lc s idx).tabs.length)
    (qr : QueryResult) (hqr : (s.tabs[i]).queryResult = some qr) :
    ∃ qr', ((handleSort lc s idx).tabs[i]).queryResult = some qr' ∧
      qr'.columns = qr.columns ∧ qr'.rows.Perm qr.rows := by
  have hsel : ((handleSort lc s idx).tabs[i]) = (fun tab =>
      if tab.id == s.activeTab then
        match tab.queryResult with
        | some qr0 =>
          { tab with queryResult := some ({ qr0 with
              rows := sortedRows lc (nextDirection s.sortConfig idx) idx qr0.rows }) }
        | none => tab
      else tab) (s.tabs[i]) := by
    simp only [handleSort]
    exact List.getElem_map _
  rw [hsel]
  simp only []
  by_cases hid : ((s.tabs[i]).id == s.activeTab) = true
  · rw [if_pos hid, hqr]
    exact ⟨_, rfl, rfl, List.perm_insertionSort _ _⟩
  · rw [if_neg hid]
    exact ⟨qr, hqr, rfl, List.Perm.refl _⟩

/-- Witness for C10: sorting the concrete numeric demo state permutes its
rows. -/
theorem handleSort_rows_permutation_witness :
    ∃ qr', (((handleSort lcDefault demoSortState 0).tabs.get ⟨0, by decide⟩).queryResult =
        some qr') ∧
      qr'.columns = [{ name := .str "a", type := ColumnType.NUMBER }] ∧
      qr'.rows.Perm [.arr [.num 3], .arr [.num 1], .arr [.num 2]] :=
  handleSort_rows_permutation lcDefault demoSortState 0 0 (by decide) (by decide)
    { columns := [{ name := .str "a", type := ColumnType.NUMBER }],
      rows := [.arr [.num 3], .arr [.num 1], .arr [.num 2]] } rfl

/-- A concrete state whose active tab's content is `"a ;;b; "`, to evaluate
statement-splitting dispatch. -/
def demoContentState : WState :=
  { tabs := [{ id := "1", name := "New Query", content := "a ;;b; ",
               queryResult := none, executionTime := none }],
    activeTab := "1", isLoading := false, sortConfig := none, columnWidths := [] }

/-- C9: with a non-blank selection exactly that substring is dispatched as
the request; with a blank selection the dispatched text is the active tab's
content split on `";"`, each statement trimmed, empty statements dropped,
rejoined with `"; "` (one single request), whenever that joined text is
non-blank. -/
theorem run_selected_dispatch (fetch : FetchOutcome) (startTime endTime : Int)
    (sel : String) (s : WState) (t0 : Tab)
    (hfind : s.tabs.find? (fun tab => tab.id == s.activeTab) = some t0) :
    (jsTrim sel ≠ "" →
      (handleRunSelected fetch startTime endTime sel s).dispatched = some sel) ∧
    (jsTrim sel = "" → jsTrim (joinQueries t0.content) ≠ "" →
      (handleRunSelected fetch startTime endTime sel s).dispatched =
        some (joinQueries t0.content)) := by
  have hdisp : ∀ q : String, jsTrim q ≠ "" →
      (runQuery fetch startTime endTime s q).dispatched = some q := by
    intro q hq
    simp only [runQuery, hfind]
    rw [if_neg (by simp [hq])]
    cases fetch with
    | networkError => rfl
    | badStatus => rfl
    | success d => cases hn : normalizeResponse d <;> simp [hn]
  constructor
  · intro hsel
    rw [handleRunSelected, if_pos (by simp [hsel])]
    exact hdisp sel hsel
  · intro hsel hjoin
    have hne : joinQueries t0.content ≠ "" := by
      intro h0
      rw [h0] at hjoin
      exact hjoin rfl
    simp only [handleRunSelected, hfind]
    rw [if_neg (by simp [hsel])]
    rw [if_pos (by simp [hne])]
    exact hdisp _ hjoin

/-- Witness for C9: a blank selection against a tab whose content is
`"a ;;b; "` dispatches `"a; b"`. -/
theorem run_selected_dispatch_witness :
    (jsTrim "" ≠ "" →
      (handleRunSelected .networkError 0 1 "" demoContentState).dispatched = some "") ∧
    (jsTrim "" = "" → jsTrim (joinQueries "a ;;b; ") ≠ "" →
      (handleRunSelected .networkError 0 1 "" demoContentState).dispatched =
        some (joinQueries "a ;;b; ")) :=
  run_selected_dispatch .networkError 0 1 "" demoContentState
    { id := "1", name := "New Query", content := "a ;;b; ",
      queryResult := none, executionTime := none }
    rfl

end Jagura
